import Mathlib

/-!
# Verification of the `ipaddr` IPv6 textual codec

Shallow embedding of the IPv6 address parser (`src/ipv6/address/parse.rs`),
the embedded IPv4 parser (`src/ipv4/address/parse.rs`) and the configurable
formatter (`src/ipv6/address/format.rs`).

Bytes are modelled as `Nat` (the sources work over ASCII byte slices),
machine integers as `Nat` (all arithmetic in the sources is overflow-free:
hextets fit in 16 bits by construction, octets in 8 bits, the packed address
in 128 bits).  Fallible Rust indexing (`bytes[i]`, `address[i] = v`) is
modelled with `List.get?` / `setChecked`, returning `none` where Rust would
panic; the parser's main loop is driven by explicit fuel (`none` on
exhaustion), so `Option.isSome` of a parse result expresses both
panic-freedom and termination.
-/

namespace Ipaddr

/-- ASCII code of `':'`. -/
def colonByte : Nat := 58

/-- ASCII code of `'.'`. -/
def dotByte : Nat := 46

/-! ## IPv4 parser (`src/ipv4/address/parse.rs`) -/

/-- `is_decimal_digit` from `ipv4/address/parse.rs`. -/
def is_decimal_digit (b : Nat) : Bool := 48 ≤ b && b ≤ 57

/-- `decimal_to_digit` from `ipv4/address/parse.rs`. -/
def decimal_to_digit (b : Nat) : Nat := b - 48

/-- `read_octet` from `ipv4/address/parse.rs`: the source loop collects
decimal digits until a non-digit or until 3 digits were read (equivalently,
the first 3 digits of the maximal decimal-digit prefix), then folds them in
base 10 and rejects values above `0xff` by returning `(0, 0)`. -/
def read_octet (bytes : List Nat) : Nat × Nat :=
  let digits := ((bytes.takeWhile is_decimal_digit).take 3).map decimal_to_digit
  let count := digits.length
  if count = 0 then (0, 0)
  else
    let res := digits.foldl (fun r d => 10 * r + d) 0
    if res > 0xff then (0, 0) else (count, res)

/-- The `for i in 0..4` loop of `Ipv4Address::parse`, with `rem + 1`
iterations remaining; the octet read when the counter is `rem + 1` is
shifted by `(3 - i) * 8 = rem * 8` bits.  After the loop (and after the
`break` at `i == 3`) the source fails if bytes remain unconsumed. -/
def Ipv4Address.parseGo (bytes : List Nat) : Nat → Nat → Nat → Except Unit Nat
  | 0, _, _ => Except.error ()
  | rem + 1, offset, address =>
    if offset = bytes.length then Except.error ()
    else
      match read_octet (bytes.drop offset) with
      | (bytes_read, octet) =>
        if bytes_read = 0 then Except.error ()
        else
          let offset := offset + bytes_read
          let address := address + octet * 2 ^ (rem * 8)
          if rem = 0 then
            if offset < bytes.length then Except.error () else Except.ok address
          else
            match bytes.get? offset with
            | some b =>
              if b = dotByte then Ipv4Address.parseGo bytes rem (offset + 1) address
              else Except.error ()
            | none => Except.error ()

/-- `Ipv4Address::parse` from `ipv4/address/parse.rs`. -/
def Ipv4Address.parse (bytes : List Nat) : Except Unit Nat :=
  if bytes.length > 15 || bytes.length < 7 then Except.error ()
  else Ipv4Address.parseGo bytes 4 0 0

/-! ## IPv6 parser (`src/ipv6/address/parse.rs`) -/

/-- `is_hex_digit` from `ipv6/address/parse.rs`. -/
def is_hex_digit (b : Nat) : Bool :=
  (48 ≤ b && b ≤ 57) || (97 ≤ b && b ≤ 102) || (65 ≤ b && b ≤ 70)

/-- `hex_to_digit` from `ipv6/address/parse.rs`. -/
def hex_to_digit (b : Nat) : Nat :=
  if 48 ≤ b && b ≤ 57 then b - 48
  else if 97 ≤ b && b ≤ 102 then b - 97 + 10
  else b - 65 + 10

/-- The second loop of `read_hextet`: `res += digit << shift`, then
`shift -= 4` while `shift >= 4`, breaking after the digit processed at
`shift < 4`. -/
def hextet_value : List Nat → Nat → Nat
  | [], _ => 0
  | d :: ds, shift => d * 2 ^ shift + (if 4 ≤ shift then hextet_value ds (shift - 4) else 0)

/-- `read_hextet` from `ipv6/address/parse.rs`: collect hex digits until a
non-digit or until 4 digits were read, then combine them with the running
shift starting at `(count - 1) * 4`. -/
def read_hextet (bytes : List Nat) : Nat × Nat :=
  let digits := ((bytes.takeWhile is_hex_digit).take 4).map hex_to_digit
  let count := digits.length
  if count = 0 then (0, 0)
  else (count, hextet_value digits ((count - 1) * 4))

/-- Rust slice assignment `l[i] = v`: in bounds it updates, out of bounds it
panics (modelled as `none`). -/
def setChecked (l : List Nat) (i v : Nat) : Option (List Nat) :=
  if i < l.length then some (l.set i v) else none

/-- The ellipsis shift of `Ipv6Address::parse`:
`for index in (ellipsis_index..hextet_index).rev() { address[index + nb_zeros] = address[index]; address[index] = 0 }`.
`shiftGo nb e j address` performs the iterations for indices `j - 1` down
to `e`. -/
def shiftGo (nb e : Nat) : Nat → List Nat → Option (List Nat)
  | 0, address => some address
  | j + 1, address =>
    if j + 1 ≤ e then some address
    else
      match address.get? j with
      | none => none
      | some v =>
        match setChecked address (j + nb) v with
        | none => none
        | some address =>
          match setChecked address j 0 with
          | none => none
          | some address => shiftGo nb e j address

/-- Packing of the 8 hextets into the 128-bit value, most significant
first (lines 175–182 of `ipv6/address/parse.rs`).  The Rust indexing here
is on a `[u16; 8]` with constant in-bounds indices, so a total read is
faithful. -/
def pack (address : List Nat) : Nat :=
  address.getD 0 0 * 2 ^ 112 + address.getD 1 0 * 2 ^ 96 +
    address.getD 2 0 * 2 ^ 80 + address.getD 3 0 * 2 ^ 64 +
    address.getD 4 0 * 2 ^ 48 + address.getD 5 0 * 2 ^ 32 +
    address.getD 6 0 * 2 ^ 16 + address.getD 7 0

/-- The post-loop stage of `Ipv6Address::parse` (lines 149–182): trailing
bytes, redundant ellipsis and incomplete address checks, then the ellipsis
shift and the final packing. -/
def Ipv6Address.finish (len offset : Nat) (ellipsis : Option Nat)
    (address : List Nat) (hextet_index : Nat) : Option (Except Unit Nat) :=
  if offset < len then some (Except.error ())
  else if hextet_index = 8 && ellipsis.isSome then some (Except.error ())
  else if hextet_index < 8 then
    match ellipsis with
    | some ellipsis_index =>
      let nb_zeros := 8 - hextet_index
      match shiftGo nb_zeros ellipsis_index hextet_index address with
      | none => none
      | some address => some (Except.ok (pack address))
    | none => some (Except.error ())
  else some (Except.ok (pack address))

/-- The main loop of `Ipv6Address::parse` (lines 57–145), fuel-driven.
Each iteration consumes at least one input byte, so fuel
`bytes.length + 1` always suffices (proved below). -/
def Ipv6Address.parseLoop (bytes : List Nat) :
    Nat → Nat → Option Nat → List Nat → Nat → Option (Except Unit Nat)
  | 0, _, _, _, _ => none
  | fuel + 1, offset, ellipsis, address, hextet_index =>
    if offset = bytes.length then
      Ipv6Address.finish bytes.length offset ellipsis address hextet_index
    else
      match read_hextet (bytes.drop offset) with
      | (bytes_read, hextet) =>
        if bytes_read = 0 then
          match bytes.get? offset with
          | none => none
          | some b =>
            if b = colonByte then
              if ellipsis.isSome then some (Except.error ())
              else
                Ipv6Address.parseLoop bytes fuel (offset + 1) (some hextet_index)
                  address hextet_index
            else some (Except.error ())
        else
          match setChecked address hextet_index hextet with
          | none => none
          | some address =>
            let offset := offset + bytes_read
            let hextet_index := hextet_index + 1
            if hextet_index = 8 || offset = bytes.length then
              Ipv6Address.finish bytes.length offset ellipsis address hextet_index
            else
              match bytes.get? offset with
              | none => none
              | some b =>
                if b = colonByte then
                  if offset + 1 = bytes.length then some (Except.error ())
                  else
                    Ipv6Address.parseLoop bytes fuel (offset + 1) ellipsis
                      address hextet_index
                else if b = dotByte then
                  match Ipv4Address.parse (bytes.drop (offset - bytes_read)) with
                  | Except.error _ => some (Except.error ())
                  | Except.ok ipv4 =>
                    match setChecked address (hextet_index - 1) (ipv4 / 2 ^ 16) with
                    | none => none
                    | some address =>
                      match setChecked address hextet_index (ipv4 % 2 ^ 16) with
                      | none => none
                      | some address =>
                        Ipv6Address.finish bytes.length bytes.length ellipsis
                          address (hextet_index + 1)
                else some (Except.error ())

/-- `Ipv6Address::parse` from `ipv6/address/parse.rs`: length bounds, the
leading-`::` special case, then the main loop. -/
def Ipv6Address.parse (bytes : List Nat) : Option (Except Unit Nat) :=
  if bytes.length > 46 || bytes.length < 2 then some (Except.error ())
  else
    match bytes.get? 0, bytes.get? 1 with
    | some b0, some b1 =>
      if b0 = colonByte then
        if b1 = colonByte then
          if bytes.length = 2 then some (Except.ok 0)
          else
            Ipv6Address.parseLoop bytes (bytes.length + 1) 2 (some 0)
              (List.replicate 8 0) 0
        else some (Except.error ())
      else
        Ipv6Address.parseLoop bytes (bytes.length + 1) 0 none
          (List.replicate 8 0) 0
    | _, _ => none

/-- `FromStr` entry point: parse the ASCII bytes of a string. -/
def Ipv6Address.parseString (s : String) : Option (Except Unit Nat) :=
  Ipv6Address.parse (s.data.map Char.toNat)

/-! ## IPv6 formatter (`src/ipv6/address/format.rs`) -/

/-- One iteration of the `Ipv6Formatter::longest_zero_sequence` scan
(lines 229–252), on the state `(start, end, longest_seq)` and the current
enumerated hextet `(i, h)`.  The `unwrap()` of `start` in the source is
reached only with `start` set (`end` is only ever set after `start`); the
corresponding impossible arm below leaves the state unchanged. -/
def lzsStep (st : Option Nat × Option Nat × Option (Nat × Nat)) (p : Nat × Nat) :
    Option Nat × Option Nat × Option (Nat × Nat) :=
  match st, p with
  | (start, en, longest_seq), (i, h) =>
    if h = 0 then
      match start with
      | none => (some i, en, longest_seq)
      | some _ => (start, some i, longest_seq)
    else
      match en, start, longest_seq with
      | some cur_end, some cur_start, some (prev_start, prev_end) =>
        if prev_end - prev_start < cur_end - cur_start then
          (none, none, some (cur_start, cur_end))
        else (some cur_start, some cur_end, some (prev_start, prev_end))
      | some cur_end, some cur_start, none =>
        (none, none, some (cur_start, cur_end))
      | some cur_end, none, longest_seq => (none, some cur_end, longest_seq)
      | none, start, longest_seq => (start, none, longest_seq)

/-- `Ipv6Formatter::longest_zero_sequence` (lines 224–257): fold the scan
step over the enumerated hextets, then the final
`if end.is_some() && longest_seq.is_none()` commit (whose `unwrap()`s are
reached only with the options set; the impossible `start = none` arm
returns `none`). -/
def longest_zero_sequence (hextets : List Nat) : Option (Nat × Nat) :=
  let st := hextets.enum.foldl lzsStep (none, none, none)
  match st with
  | (some start, some en, none) => some (start, en)
  | (none, some _, none) => none
  | (_, _, longest_seq) => longest_seq

/-- `Ipv6Formatter::write_hextet`: Rust `{:x}` / `{:X}` / `{:04x}` / `{:04X}`
rendering of a 16-bit group (minimal hex digits, optionally zero-padded to
width 4, optionally upper case). -/
def write_hextet (leading_zeros upper_case : Bool) (hextet : Nat) : String :=
  let s := String.mk (Nat.toDigits 16 hextet)
  let s :=
    if leading_zeros then String.mk (List.replicate (4 - s.length) '0') ++ s
    else s
  if upper_case then s.toUpper else s

/-- `Ipv6Formatter::write_hextets`: write the groups at the given indices,
colon-separated (no separator before the first one). -/
def write_hextets (leading_zeros upper_case : Bool) (hextets : List Nat)
    (indices : List Nat) : String :=
  match indices with
  | [] => ""
  | i :: rest =>
    rest.foldl
      (fun s j => s ++ ":" ++ write_hextet leading_zeros upper_case (hextets.getD j 0))
      (write_hextet leading_zeros upper_case (hextets.getD i 0))

/-- `Ipv6Formatter::write` (lines 273–283), with the writer specialised to a
string sink (which never fails): the configuration is the three booleans of
the formatter, the ranges `0..start` and `end + 1..=7` are the index lists
`List.range start` and `List.range' (end + 1) (7 - end)`. -/
def Ipv6Formatter.write (ellipsis leading_zeros upper_case : Bool)
    (hextets : List Nat) : String :=
  if !ellipsis then write_hextets leading_zeros upper_case hextets (List.range 8)
  else
    match longest_zero_sequence hextets with
    | some (start, en) =>
      write_hextets leading_zeros upper_case hextets (List.range start) ++ "::" ++
        write_hextets leading_zeros upper_case hextets (List.range' (en + 1) (7 - en))
    | none => write_hextets leading_zeros upper_case hextets (List.range 8)

/-- `Ipv6Address::hextet` from `ipv6/address/address.rs`:
`((self.0 >> ((7 - i) * 16)) & 0xffff)`. -/
def Ipv6Address.hextet (v i : Nat) : Nat := (v / 2 ^ ((7 - i) * 16)) % 2 ^ 16

/-- `Ipv6Address::hextets`: the 8-group decomposition, most significant
group first. -/
def Ipv6Address.hextets (v : Nat) : List Nat :=
  (List.range 8).map (Ipv6Address.hextet v)

/-- Default-configuration (RFC 5952 / canonical) formatting of a 128-bit
value: ellipsis on, leading zeros off, lower case. -/
def format_canonical (v : Nat) : String :=
  Ipv6Formatter.write true false false (Ipv6Address.hextets v)

end Ipaddr

namespace Ipaddr

/-! ## Concrete evaluations of the codec

The value `0x00010000000200030004000500000007` has hextets
`[1, 0, 2, 3, 4, 5, 0, 7]`: its only zero groups are the isolated single
zeros at positions 1 and 6.  Because `longest_zero_sequence` never resets
`start` when a length-1 zero run ends, the scan records the pair `(1, 6)`
and `write` elides positions 1–6 — including the nonzero groups 2–5 —
producing `"1::7"`. -/

/-- **C1.** The round-trip `parse ∘ format_canonical = id` fails: the value
with hextets `[1, 0, 2, 3, 4, 5, 0, 7]` is formatted as `"1::7"`, which
parses back to the different value with hextets `[1, 0, 0, 0, 0, 0, 0, 7]`. -/
theorem c1_roundtrip_fails_on_isolated_zeros :
    Ipv6Address.parseString (format_canonical 0x00010000000200030004000500000007) =
      some (Except.ok 0x00010000000000000000000000000007) ∧
    (0x00010000000000000000000000000007 : Nat) ≠
      0x00010000000200030004000500000007 :=
  ⟨rfl, by decide⟩

/-- **C2.** The default-configuration formatter is not injective: the
distinct values with hextets `[1, 0, 2, 3, 4, 5, 0, 7]` and
`[1, 0, 0, 0, 0, 0, 0, 7]` both format to `"1::7"`. -/
theorem c2_formatter_not_injective :
    format_canonical 0x00010000000200030004000500000007 =
      format_canonical 0x00010000000000000000000000000007 ∧
    (0x00010000000200030004000500000007 : Nat) ≠
      0x00010000000000000000000000000007 :=
  ⟨rfl, by decide⟩

/-- **C3.** The elided span is not always a run of zero groups: for hextets
`[1, 0, 2, 3, 4, 5, 0, 7]` (whose maximal zero runs are the single
positions 1 and 6) the scan records `(1, 6)` and the formatter emits
`"1::7"`, eliding the nonzero groups 2–5.  The tie-break example of the
claim does hold: `[1, 0, 0, 2, 0, 0, 3, 4]` formats as `"1::2:0:0:3:4"`. -/
theorem c3_elided_span_not_a_zero_run :
    longest_zero_sequence [1, 0, 2, 3, 4, 5, 0, 7] = some (1, 6) ∧
    format_canonical 0x00010000000200030004000500000007 = "1::7" ∧
    format_canonical 0x00010000000000020000000000030004 = "1::2:0:0:3:4" :=
  ⟨rfl, rfl, rfl⟩

/-- **C6.** Each of the eight listed malformed inputs is rejected by the
parser with a failure (no saturation, no approximation). -/
theorem c6_rejected_inputs :
    Ipv6Address.parseString "" = some (Except.error ()) ∧
    Ipv6Address.parseString ":" = some (Except.error ()) ∧
    Ipv6Address.parseString "::::" = some (Except.error ()) ∧
    Ipv6Address.parseString "::1::" = some (Except.error ()) ∧
    Ipv6Address.parseString "1:2:3:4:5:6:7:8:9" = some (Except.error ()) ∧
    Ipv6Address.parseString "1:2:3:4:5:6:7" = some (Except.error ()) ∧
    Ipv6Address.parseString "12345::" = some (Except.error ()) ∧
    Ipv6Address.parseString "::ffff:256.0.0.1" = some (Except.error ()) :=
  ⟨rfl, rfl, rfl, rfl, rfl, rfl, rfl, rfl⟩

/-- **C7.** Boundary literals: `"::"` parses to `0` and `0` formats back to
`"::"`; `"::1"` parses to `1`; `"::1.2.3.4"` parses to the value whose
hextets are `[0, 0, 0, 0, 0, 0, 0x0102, 0x0304]` (the dotted-decimal
suffix occupies exactly the last two groups). -/
theorem c7_boundary_literals :
    Ipv6Address.parseString "::" = some (Except.ok 0) ∧
    format_canonical 0 = "::" ∧
    Ipv6Address.parseString "::1" = some (Except.ok 1) ∧
    Ipv6Address.parseString "::1.2.3.4" = some (Except.ok 0x01020304) ∧
    Ipv6Address.hextets 0x01020304 = [0, 0, 0, 0, 0, 0, 0x0102, 0x0304] :=
  ⟨rfl, rfl, rfl, rfl, rfl⟩

/-- **C10, counterexample.** A hextet array whose only zero groups are
isolated (positions 1 and 6, no two consecutive zeros) is *not* written as
all 8 colon-separated groups: the formatter emits `"1::7"`. -/
theorem c10_isolated_zeros_still_elided :
    Ipv6Formatter.write true false false [1, 0, 2, 3, 4, 5, 0, 7] = "1::7" ∧
    Ipv6Formatter.write true false false [1, 0, 2, 3, 4, 5, 0, 7] ≠
      write_hextets false false [1, 0, 2, 3, 4, 5, 0, 7] (List.range 8) :=
  ⟨rfl, by decide⟩

end Ipaddr

namespace Ipaddr

theorem c8_length_out_of_bounds (bytes : List Nat)
    (h : bytes.length < 2 ∨ 46 < bytes.length) :
    Ipv6Address.parse bytes = some (Except.error ()) := by
  have hb : (bytes.length > 46 || bytes.length < 2) = true := by
    rcases h with h | h <;> simp [h]
  simp [Ipv6Address.parse, hb]

theorem c8_witness : Ipv6Address.parse [] = some (Except.error ()) :=
  c8_length_out_of_bounds [] (Or.inl (by decide))

theorem read_hextet_fst_le (bytes : List Nat) : (read_hextet bytes).1 ≤ bytes.length := by
  have h1 : (((bytes.takeWhile is_hex_digit).take 4).map hex_to_digit).length ≤ bytes.length := by
    rw [List.length_map, List.length_take]
    exact le_trans (min_le_right _ _) (List.takeWhile_sublist _).length_le
  rw [read_hextet]
  split
  · exact Nat.zero_le _
  · exact h1

theorem shiftGo_isSome (nb e : Nat) :
    ∀ (j : Nat) (address : List Nat), j ≤ address.length → j + nb ≤ address.length →
      (shiftGo nb e j address).isSome := by
  intro j
  induction j with
  | zero => intro address _ _; simp [shiftGo]
  | succ j ih =>
    intro address hj hjnb
    rw [shiftGo]
    split
    · simp
    · have hjlt : j < address.length := hj
      have hjnblt : j + nb < address.length := by omega
      rw [List.get?_eq_get hjlt]
      dsimp only
      have hs1 : setChecked address (j + nb) (address.get ⟨j, hjlt⟩) =
          some (address.set (j + nb) (address.get ⟨j, hjlt⟩)) := by
        simp [setChecked, hjnblt]
      rw [hs1]
      dsimp only
      have hlen1 : (address.set (j + nb) (address.get ⟨j, hjlt⟩)).length = address.length :=
        List.length_set ..
      have hs2 : setChecked (address.set (j + nb) (address.get ⟨j, hjlt⟩)) j 0 =
          some ((address.set (j + nb) (address.get ⟨j, hjlt⟩)).set j 0) := by
        simp [setChecked, hlen1, hjlt]
      rw [hs2]
      dsimp only
      apply ih
      · simp [hlen1]; omega
      · simp [hlen1]; omega

theorem finish_isSome (len offset : Nat) (ellipsis : Option Nat) (address : List Nat)
    (k : Nat) (hlen : address.length = 8) (hk : k ≤ 8) :
    (Ipv6Address.finish len offset ellipsis address k).isSome := by
  unfold Ipv6Address.finish
  split
  · simp
  · split
    · simp
    · split
      · match ellipsis with
        | some e =>
          have h := shiftGo_isSome (8 - k) e k address (by omega) (by omega)
          obtain ⟨l, hl⟩ := Option.isSome_iff_exists.mp h
          dsimp only
          simp only [hl]
          simp
        | none => simp
      · simp

end Ipaddr

namespace Ipaddr

theorem parseLoop_isSome (bytes : List Nat) :
    ∀ (fuel offset : Nat) (ellipsis : Option Nat) (address : List Nat) (k : Nat),
      address.length = 8 → k < 8 → offset ≤ bytes.length →
      bytes.length - offset < fuel →
      (Ipv6Address.parseLoop bytes fuel offset ellipsis address k).isSome := by
  intro fuel
  induction fuel with
  | zero => intro offset _ _ _ _ _ ho hf; omega
  | succ fuel ih =>
    intro offset ellipsis address k hlen hk ho hf
    rw [Ipv6Address.parseLoop]
    split
    · exact finish_isSome _ _ _ _ _ hlen (by omega)
    · rename_i h1
      have hlt : offset < bytes.length := lt_of_le_of_ne ho h1
      rcases hrh : read_hextet (bytes.drop offset) with ⟨br, hx⟩
      dsimp only
      by_cases hbr : br = 0
      · rw [if_pos hbr]
        rw [List.get?_eq_get hlt]
        dsimp only
        split
        · split
          · simp
          · exact ih (offset + 1) _ _ _ hlen hk (by omega) (by omega)
        · simp
      · rw [if_neg hbr]
        have hbr1 : 1 ≤ br := Nat.one_le_iff_ne_zero.mpr hbr
        have hbrle : br ≤ bytes.length - offset := by
          have := read_hextet_fst_le (bytes.drop offset)
          rw [hrh, List.length_drop] at this
          exact this
        have hset : setChecked address k hx = some (address.set k hx) := by
          simp [setChecked, hlen, hk]
        rw [hset]
        dsimp only
        have hlen' : (address.set k hx).length = 8 := by simp [hlen]
        split
        · exact finish_isSome _ _ _ _ _ hlen' (by omega)
        · rename_i h2
          simp only [Bool.or_eq_true, decide_eq_true_eq, not_or] at h2
          obtain ⟨h2a, h2b⟩ := h2
          have hk8 : k + 1 < 8 := by omega
          have hoff : offset + br < bytes.length := by omega
          rw [List.get?_eq_get hoff]
          dsimp only
          split
          · split
            · simp
            · exact ih (offset + br + 1) _ _ _ hlen' hk8 (by omega) (by omega)
          · split
            · split
              · simp
              · rename_i ipv4 _
                have hs1 : setChecked (address.set k hx) (k + 1 - 1) (ipv4 / 2 ^ 16) =
                    some ((address.set k hx).set (k + 1 - 1) (ipv4 / 2 ^ 16)) := by
                  unfold setChecked
                  rw [hlen', if_pos (by omega : k + 1 - 1 < 8)]
                rw [hs1]
                dsimp only
                have hlen'' : ((address.set k hx).set (k + 1 - 1) (ipv4 / 2 ^ 16)).length = 8 := by
                  simp [hlen]
                have hs2 : setChecked ((address.set k hx).set (k + 1 - 1) (ipv4 / 2 ^ 16)) (k + 1) (ipv4 % 2 ^ 16) =
                    some (((address.set k hx).set (k + 1 - 1) (ipv4 / 2 ^ 16)).set (k + 1) (ipv4 % 2 ^ 16)) := by
                  unfold setChecked
                  rw [hlen'', if_pos (by omega : k + 1 < 8)]
                rw [hs2]
                dsimp only
                exact finish_isSome _ _ _ _ _ (by simp [hlen]) (by omega)
            · simp

theorem c9_parse_total (bytes : List Nat) : (Ipv6Address.parse bytes).isSome := by
  unfold Ipv6Address.parse
  split
  · simp
  · rename_i hb
    have hlen : 2 ≤ bytes.length ∧ bytes.length ≤ 46 := by
      simp only [Bool.or_eq_true, decide_eq_true_eq, not_or] at hb
      omega
    have h0 : 0 < bytes.length := by omega
    have h1 : 1 < bytes.length := by omega
    rw [List.get?_eq_get h0, List.get?_eq_get h1]
    dsimp only
    split
    · split
      · split
        · simp
        · exact parseLoop_isSome bytes _ 2 _ _ 0 (by simp) (by omega) (by omega) (by omega)
      · simp
    · exact parseLoop_isSome bytes _ 0 _ _ 0 (by simp) (by omega) (by omega) (by omega)

end Ipaddr

namespace Ipaddr

/-- Scan invariant for `longest_zero_sequence`: a set `start` (or a
committed run) witnesses at least one zero seen so far, a set `end` (or a
committed run) witnesses at least two, and `end` is only ever set after
`start`. -/
theorem lzs_fold_two_zeros (l : List Nat) :
    ∀ (n z : Nat) (start en : Option Nat) (longest : Option (Nat × Nat)),
      (en.isSome = true → start.isSome = true) →
      ((start.isSome = true ∨ longest.isSome = true) ↔ 1 ≤ z) →
      ((en.isSome = true ∨ longest.isSome = true) ↔ 2 ≤ z) →
      ((List.foldl lzsStep (start, en, longest) (List.enumFrom n l)).2.1.isSome = true →
        (List.foldl lzsStep (start, en, longest) (List.enumFrom n l)).1.isSome = true) ∧
      (((List.foldl lzsStep (start, en, longest) (List.enumFrom n l)).2.1.isSome = true ∨
        (List.foldl lzsStep (start, en, longest) (List.enumFrom n l)).2.2.isSome = true) ↔
        2 ≤ z + l.count 0) := by
  induction l with
  | nil =>
    intro n z start en longest h1 h2 h3
    simp only [List.enumFrom, List.foldl_nil, List.count_nil, Nat.add_zero]
    exact ⟨h1, h3⟩
  | cons x l ih =>
    intro n z start en longest h1 h2 h3
    rw [show List.enumFrom n (x :: l) = (n, x) :: List.enumFrom (n + 1) l from rfl,
      List.foldl_cons]
    rcases x with _ | x
    · have hc : ((0 : Nat) :: l).count 0 = l.count 0 + 1 := by simp
      rw [hc]
      rcases start with _ | s0
      · have hen : en = none := by
          rcases en with _ | e0
          · rfl
          · simpa using h1 rfl
        subst hen
        rw [show lzsStep (none, none, longest) (n, 0) = (some n, none, longest) from rfl]
        simp only [Option.isSome_none, Bool.false_eq_true, false_or] at h2
        have H := ih (n + 1) (z + 1) (some n) none longest (by simp) (by simp)
          (by simpa using h2.trans (by omega))
        exact ⟨H.1, H.2.trans (by omega)⟩
      · rw [show lzsStep (some s0, en, longest) (n, 0) = (some s0, some n, longest) from rfl]
        have hz1 : 1 ≤ z := h2.mp (Or.inl (by simp))
        have H := ih (n + 1) (z + 1) (some s0) (some n) longest (by simp)
          (by simp) (by simp; omega)
        exact ⟨H.1, H.2.trans (by omega)⟩
    · have hc : ((x + 1 : Nat) :: l).count 0 = l.count 0 := by
        simp [List.count_cons]
      rw [hc]
      rcases en with _ | e0
      · rcases start with _ | s0
        · rw [show lzsStep (none, none, longest) (n, x + 1) = (none, none, longest) from rfl]
          exact ih (n + 1) z none none longest h1 h2 h3
        · rw [show lzsStep (some s0, none, longest) (n, x + 1) =
              (some s0, none, longest) from rfl]
          exact ih (n + 1) z (some s0) none longest h1 h2 h3
      · have hstart : start.isSome = true := h1 rfl
        rcases start with _ | s0
        · simp at hstart
        · have hz2 : 2 ≤ z := h3.mp (Or.inl (by simp))
          rcases longest with _ | ⟨a, b⟩
          · rw [show lzsStep (some s0, some e0, none) (n, x + 1) =
                (none, none, some (s0, e0)) from rfl]
            exact ih (n + 1) z none none (some (s0, e0)) (by simp) (by simp; omega)
              (by simp; omega)
          · rw [show lzsStep (some s0, some e0, some (a, b)) (n, x + 1) =
                if b - a < e0 - s0 then (none, none, some (s0, e0))
                else (some s0, some e0, some (a, b)) from rfl]
            split
            · exact ih (n + 1) z none none (some (s0, e0)) (by simp) (by simp; omega)
                (by simp; omega)
            · exact ih (n + 1) z (some s0) (some e0) (some (a, b)) (by simp) (by simp; omega)
                (by simp; omega)

end Ipaddr

namespace Ipaddr

/-- Scan invariant for `longest_zero_sequence`, ordering part: `start` and
`end` always hold indices below the scan position, `end` is set after
`start` at a strictly larger index, and every committed run `(a, b)` has
`a < b`. -/
theorem lzs_fold_ordered (l : List Nat) :
    ∀ (n : Nat) (start en : Option Nat) (longest : Option (Nat × Nat)),
      (∀ s0, start = some s0 → s0 < n) →
      (∀ e0, en = some e0 → (∃ s0, start = some s0 ∧ s0 < e0) ∧ e0 < n) →
      (∀ a b, longest = some (a, b) → a < b) →
      (∀ e0, (List.foldl lzsStep (start, en, longest) (List.enumFrom n l)).2.1 = some e0 →
        ∃ s0, (List.foldl lzsStep (start, en, longest) (List.enumFrom n l)).1 = some s0 ∧
          s0 < e0) ∧
      (∀ a b, (List.foldl lzsStep (start, en, longest) (List.enumFrom n l)).2.2 =
        some (a, b) → a < b) := by
  induction l with
  | nil =>
    intro n start en longest hs he hl
    simp only [List.enumFrom, List.foldl_nil]
    exact ⟨fun e0 h => (he e0 h).1, hl⟩
  | cons x l ih =>
    intro n start en longest hs he hl
    rw [show List.enumFrom n (x :: l) = (n, x) :: List.enumFrom (n + 1) l from rfl,
      List.foldl_cons]
    rcases x with _ | x
    · rcases start with _ | s0
      · have hen : en = none := by
          rcases en with _ | e0
          · rfl
          · obtain ⟨⟨s0, hs0, _⟩, _⟩ := he e0 rfl
            exact absurd hs0 (by simp)
        subst hen
        rw [show lzsStep (none, none, longest) (n, 0) = (some n, none, longest) from rfl]
        refine ih (n + 1) (some n) none longest ?_ (by simp) hl
        intro s0 h
        injection h with h
        omega
      · rw [show lzsStep (some s0, en, longest) (n, 0) = (some s0, some n, longest) from rfl]
        refine ih (n + 1) (some s0) (some n) longest ?_ ?_ hl
        · intro s0' h
          injection h with h
          have := hs s0 rfl
          omega
        · intro e0 h
          injection h with h
          subst h
          exact ⟨⟨s0, rfl, hs s0 rfl⟩, by omega⟩
    · rcases en with _ | e0
      · rcases start with _ | s0
        · rw [show lzsStep (none, none, longest) (n, x + 1) = (none, none, longest) from rfl]
          exact ih (n + 1) none none longest (by simp) (by simp) hl
        · rw [show lzsStep (some s0, none, longest) (n, x + 1) =
              (some s0, none, longest) from rfl]
          refine ih (n + 1) (some s0) none longest ?_ (by simp) hl
          intro s0' h
          injection h with h
          have := hs s0 rfl
          omega
      · obtain ⟨⟨s0, hs0, hlt⟩, hen⟩ := he e0 rfl
        subst hs0
        rcases longest with _ | ⟨a, b⟩
        · rw [show lzsStep (some s0, some e0, none) (n, x + 1) =
              (none, none, some (s0, e0)) from rfl]
          refine ih (n + 1) none none (some (s0, e0)) (by simp) (by simp) ?_
          intro a b h
          injection h with h
          rw [Prod.mk.injEq] at h
          omega
        · rw [show lzsStep (some s0, some e0, some (a, b)) (n, x + 1) =
              if b - a < e0 - s0 then (none, none, some (s0, e0))
              else (some s0, some e0, some (a, b)) from rfl]
          split
          · refine ih (n + 1) none none (some (s0, e0)) (by simp) (by simp) ?_
            intro a' b' h
            injection h with h
            rw [Prod.mk.injEq] at h
            omega
          · refine ih (n + 1) (some s0) (some e0) (some (a, b)) ?_ ?_ hl
            · intro s0' h
              injection h with h
              have := hs s0 rfl
              omega
            · intro e0' h
              injection h with h
              subst h
              exact ⟨⟨s0, rfl, hlt⟩, by omega⟩

/-- The scan finds a pair exactly when the hextets contain at least two
zero groups. -/
theorem lzs_isSome_iff (l : List Nat) :
    (longest_zero_sequence l).isSome = true ↔ 2 ≤ l.count 0 := by
  have H := lzs_fold_two_zeros l 0 0 none none none (by simp) (by simp) (by simp)
  unfold longest_zero_sequence
  rw [show l.enum = List.enumFrom 0 l from rfl]
  rcases hres : List.foldl lzsStep (none, none, none) (List.enumFrom 0 l) with ⟨s, e, lg⟩
  rw [hres] at H
  rcases s with _ | s0 <;> rcases e with _ | e0 <;> rcases lg with _ | ⟨a, b⟩ <;>
    simp_all

/-- Any pair returned by the scan is strictly increasing. -/
theorem lzs_some_lt (l : List Nat) (s e : Nat)
    (h : longest_zero_sequence l = some (s, e)) : s < e := by
  have H := lzs_fold_ordered l 0 none none none (by simp) (by simp) (by simp)
  unfold longest_zero_sequence at h
  rw [show l.enum = List.enumFrom 0 l from rfl] at h
  rcases hres : List.foldl lzsStep (none, none, none) (List.enumFrom 0 l) with ⟨s', e', lg⟩
  rw [hres] at h H
  rcases s' with _ | s0 <;> rcases e' with _ | e0 <;> rcases lg with _ | ⟨a, b⟩ <;>
    simp_all

end Ipaddr

namespace Ipaddr

/-- **C4, counterexample.** The hextets `[1, 0, 2, 2, 2, 2, 2, 2]` contain
a zero-valued group, yet the elision-enabled formatter emits no `::`: the
scan finds no pair and all 8 groups are written colon-separated. -/
theorem c4_single_zero_group_not_elided :
    longest_zero_sequence [1, 0, 2, 2, 2, 2, 2, 2] = none ∧
    (0 : Nat) ∈ [1, 0, 2, 2, 2, 2, 2, 2] ∧
    Ipv6Formatter.write true false false [1, 0, 2, 2, 2, 2, 2, 2] =
      "1:0:2:2:2:2:2:2" :=
  ⟨rfl, by decide, rfl⟩

/-- **C4, amended.** With elision enabled, the formatter emits `::` if and
only if the 8-group array contains at least **two** zero-valued groups
(not one): the scan returns a pair exactly in that case, no `::` is
emitted when it returns `none`, and when it returns `(start, end)` the
output is the groups before `start`, then `::`, then the groups after
`end`, either side possibly empty. -/
theorem c4_ellipsis_iff_two_zero_groups (lz uc : Bool) (h : List Nat)
    (hlen : h.length = 8) :
    ((longest_zero_sequence h).isSome = true ↔ 2 ≤ h.count 0) ∧
    (longest_zero_sequence h = none →
      Ipv6Formatter.write true lz uc h = write_hextets lz uc h (List.range 8)) ∧
    (∀ s e, longest_zero_sequence h = some (s, e) →
      Ipv6Formatter.write true lz uc h =
        write_hextets lz uc h (List.range s) ++ "::" ++
          write_hextets lz uc h (List.range' (e + 1) (7 - e))) := by
  refine ⟨lzs_isSome_iff h, ?_, ?_⟩
  · intro hnone
    simp [Ipv6Formatter.write, hnone]
  · intro s e hsome
    simp [Ipv6Formatter.write, hsome]

theorem c4_witness :
    (((longest_zero_sequence [0, 0, 1, 1, 1, 1, 1, 1]).isSome = true ↔
      2 ≤ ([0, 0, 1, 1, 1, 1, 1, 1] : List Nat).count 0) ∧
    (longest_zero_sequence [0, 0, 1, 1, 1, 1, 1, 1] = none →
      Ipv6Formatter.write true false false [0, 0, 1, 1, 1, 1, 1, 1] =
        write_hextets false false [0, 0, 1, 1, 1, 1, 1, 1] (List.range 8)) ∧
    (∀ s e, longest_zero_sequence [0, 0, 1, 1, 1, 1, 1, 1] = some (s, e) →
      Ipv6Formatter.write true false false [0, 0, 1, 1, 1, 1, 1, 1] =
        write_hextets false false [0, 0, 1, 1, 1, 1, 1, 1] (List.range s) ++ "::" ++
          write_hextets false false [0, 0, 1, 1, 1, 1, 1, 1] (List.range' (e + 1) (7 - e)))) :=
  c4_ellipsis_iff_two_zero_groups false false [0, 0, 1, 1, 1, 1, 1, 1] (by decide)

/-- **C10, amended.** Whenever the scan records a run `(start, end)`, the
elided span covers at least two group positions (`start < end`), so a
single group position is never replaced by `::`; and an 8-group array with
at most one zero-valued group is always written as all 8 groups
colon-separated.  (The original claim's stronger clause — that an array
whose zero groups are all isolated prints all 8 groups — is refuted by
`c10_isolated_zeros_still_elided`.) -/
theorem c10_elided_span_spans_two_positions (lz uc : Bool) (h : List Nat)
    (hlen : h.length = 8) :
    (∀ s e, longest_zero_sequence h = some (s, e) → s < e) ∧
    (h.count 0 ≤ 1 →
      Ipv6Formatter.write true lz uc h = write_hextets lz uc h (List.range 8)) := by
  refine ⟨lzs_some_lt h, ?_⟩
  intro hcount
  have hnone : longest_zero_sequence h = none := by
    rcases hsome : longest_zero_sequence h with _ | p
    · rfl
    · have := (lzs_isSome_iff h).mp (by simp [hsome])
      omega
  simp [Ipv6Formatter.write, hnone]

theorem c10_witness :
    ((∀ s e, longest_zero_sequence [1, 2, 3, 4, 5, 6, 7, 0] = some (s, e) → s < e) ∧
    (([1, 2, 3, 4, 5, 6, 7, 0] : List Nat).count 0 ≤ 1 →
      Ipv6Formatter.write true false false [1, 2, 3, 4, 5, 6, 7, 0] =
        write_hextets false false [1, 2, 3, 4, 5, 6, 7, 0] (List.range 8))) :=
  c10_elided_span_spans_two_positions false false [1, 2, 3, 4, 5, 6, 7, 0] (by decide)

end Ipaddr

namespace Ipaddr

/-- Pointwise characterisation of the ellipsis shift loop: positions below
`e` are untouched, positions from `e` up to the processed window are
zeroed, each processed source index `i ∈ [e, j)` is copied to `i + nb`,
and everything at or above `j + nb` is untouched. -/
theorem shiftGo_spec (nb e : Nat) (hnb : 1 ≤ nb) :
    ∀ (j : Nat) (address : List Nat), j + nb ≤ address.length →
      ∃ res, shiftGo nb e j address = some res ∧ res.length = address.length ∧
        (∀ p, p < e → res[p]? = address[p]?) ∧
        (∀ p, e ≤ p → p < j → p < e + nb → res[p]? = some 0) ∧
        (∀ p, j ≤ p → p < e + nb → res[p]? = address[p]?) ∧
        (∀ p, e + nb ≤ p → p < j + nb → res[p]? = address[p - nb]?) ∧
        (∀ p, j + nb ≤ p → res[p]? = address[p]?) := by
  intro j
  induction j with
  | zero =>
    intro address hlen
    refine ⟨address, by simp [shiftGo], rfl, fun p _ => rfl, ?_, fun p _ _ => rfl,
      ?_, fun p _ => rfl⟩
    · intro p _ hp _
      omega
    · intro p hp hp2
      omega
  | succ j ih =>
    intro address hlen
    rw [shiftGo]
    split
    · rename_i hje
      refine ⟨address, rfl, rfl, fun p _ => rfl, ?_, fun p _ _ => rfl, ?_,
        fun p _ => rfl⟩
      · intro p hep hpj _
        omega
      · intro p hp hp2
        omega
    · rename_i hje
      have hej : e ≤ j := by omega
      have hjlt : j < address.length := by omega
      have hjnblt : j + nb < address.length := by omega
      rw [List.get?_eq_get hjlt]
      dsimp only
      have hs1 : setChecked address (j + nb) (address.get ⟨j, hjlt⟩) =
          some (address.set (j + nb) (address.get ⟨j, hjlt⟩)) := by
        simp [setChecked, hjnblt]
      rw [hs1]
      dsimp only
      set addr1 := address.set (j + nb) (address.get ⟨j, hjlt⟩) with haddr1
      have hlen1 : addr1.length = address.length := List.length_set ..
      have hs2 : setChecked addr1 j 0 = some (addr1.set j 0) := by
        simp [setChecked, hlen1, hjlt]
      rw [hs2]
      dsimp only
      set addr2 := addr1.set j 0 with haddr2def
      have hlen2 : addr2.length = address.length := by
        rw [haddr2def, List.length_set, hlen1]
      -- pointwise description of the two writes
      have haddr2 : ∀ p, addr2[p]? =
          if p = j then some 0
          else if p = j + nb then some address[j] else address[p]? := by
        intro p
        by_cases hpj : p = j
        · subst hpj
          rw [haddr2def, List.getElem?_set, if_pos rfl,
            if_pos (show p < addr1.length from by rw [hlen1]; exact hjlt), if_pos rfl]
        · by_cases hpjnb : p = j + nb
          · subst hpjnb
            rw [haddr2def, List.getElem?_set, if_neg (by omega), haddr1,
              List.getElem?_set, if_pos rfl, if_pos hjnblt, if_neg (by omega),
              if_pos rfl, List.get_eq_getElem]
          · rw [haddr2def, List.getElem?_set, if_neg (by omega), haddr1,
              List.getElem?_set, if_neg (by omega), if_neg hpj, if_neg hpjnb]
      obtain ⟨res, hres, hreslen, c2, c3, c4, c5, c6⟩ :=
        ih addr2 (by omega)
      refine ⟨res, hres, by omega, ?_, ?_, ?_, ?_, ?_⟩
      · intro p hp
        rw [c2 p hp, haddr2 p, if_neg (by omega), if_neg (by omega)]
      · intro p hep hpj hpnb
        rcases Nat.lt_or_ge p j with h | h
        · exact c3 p hep h hpnb
        · have hpj' : p = j := by omega
          rw [c4 p h hpnb, haddr2 p, if_pos hpj']
      · intro p hjp hpnb
        rw [c4 p (by omega) hpnb, haddr2 p, if_neg (by omega), if_neg (by omega)]
      · intro p hpl hpr
        rcases Nat.lt_or_ge p (j + nb) with h | h
        · rw [c5 p hpl h, haddr2 (p - nb), if_neg (by omega), if_neg (by omega)]
        · have hpj' : p = j + nb := by omega
          rw [c6 p h, haddr2 p, if_neg (by omega), if_pos hpj',
            show p - nb = j from by omega, List.getElem?_eq_getElem hjlt]
      · intro p hp
        rw [c6 p (by omega), haddr2 p, if_neg (by omega), if_neg (by omega)]

end Ipaddr

namespace Ipaddr

/-- **C5.** The post-loop stage: fails on unconsumed bytes; fails on 8
groups plus an ellipsis; fails on fewer than 8 groups without an ellipsis;
and with `k < 8` explicit groups and an ellipsis at index `e`, the packed
groups are those before the ellipsis, then `8 - k` zero groups, then the
groups read at or after the ellipsis index. -/
theorem c5_post_loop_behavior (len offset : Nat) (ellipsis : Option Nat)
    (address : List Nat) (k : Nat) (hlen : address.length = 8) :
    (offset < len →
      Ipv6Address.finish len offset ellipsis address k = some (Except.error ())) ∧
    (len ≤ offset → k = 8 → ellipsis.isSome = true →
      Ipv6Address.finish len offset ellipsis address k = some (Except.error ())) ∧
    (len ≤ offset → k < 8 → ellipsis = none →
      Ipv6Address.finish len offset ellipsis address k = some (Except.error ())) ∧
    (∀ e, len ≤ offset → k < 8 → ellipsis = some e → e ≤ k →
      (∀ i, k ≤ i → address.getD i 0 = 0) →
      Ipv6Address.finish len offset ellipsis address k =
        some (Except.ok (pack (address.take e ++ List.replicate (8 - k) 0 ++
          (address.drop e).take (k - e))))) := by
  refine ⟨?_, ?_, ?_, ?_⟩
  · intro h
    unfold Ipv6Address.finish
    rw [if_pos h]
  · intro h1 h2 h3
    unfold Ipv6Address.finish
    rw [if_neg (by omega), if_pos (by simp [h2, h3])]
  · intro h1 h2 h3
    unfold Ipv6Address.finish
    rw [if_neg (by omega), if_neg (by simp [h3]), if_pos h2, h3]
  · intro e h1 h2 h3 h4 h5
    unfold Ipv6Address.finish
    rw [if_neg (by omega),
      if_neg (by simp only [Bool.and_eq_true, decide_eq_true_eq]; exact fun hh => absurd hh.1 (by omega)),
      if_pos h2, h3]
    dsimp only
    obtain ⟨res, hres, hreslen, c2, c3, c4, c5, c6⟩ :=
      shiftGo_spec (8 - k) e (by omega) k address (by omega)
    rw [hres]
    dsimp only
    have hA : (address.take e).length = e := by
      rw [List.length_take, hlen]
      exact Nat.min_eq_left (by omega)
    have hAB : (address.take e ++ List.replicate (8 - k) 0).length = e + (8 - k) := by
      rw [List.length_append, hA, List.length_replicate]
    have hC : ((address.drop e).take (k - e)).length = k - e := by
      rw [List.length_take, List.length_drop, hlen]
      exact Nat.min_eq_left (by omega)
    have htarget : ∀ p,
        (address.take e ++ List.replicate (8 - k) 0 ++ (address.drop e).take (k - e))[p]? =
        if p < e then address[p]?
        else if p < e + (8 - k) then some 0
        else if p < 8 then address[p - (8 - k)]? else none := by
      intro p
      rw [List.getElem?_append]
      by_cases hp1 : p < e
      · rw [if_pos (by rw [hAB]; omega), List.getElem?_append, if_pos (by rw [hA]; omega),
          List.getElem?_take, if_pos hp1, if_pos hp1]
      · by_cases hp2 : p < e + (8 - k)
        · rw [if_pos (by rw [hAB]; omega), List.getElem?_append, if_neg (by rw [hA]; omega),
            List.getElem?_replicate, if_pos (by rw [hA]; omega), if_neg hp1, if_pos hp2]
        · rw [if_neg (by rw [hAB]; omega), hAB]
          by_cases hp3 : p < 8
          · rw [List.getElem?_take, if_pos (by omega), List.getElem?_drop,
              if_neg hp1, if_neg hp2, if_pos hp3,
              show e + (p - (e + (8 - k))) = p - (8 - k) from by omega]
          · rw [List.getElem?_take, if_neg (by omega), if_neg hp1, if_neg hp2, if_neg hp3]
    have hfinal : res =
        address.take e ++ List.replicate (8 - k) 0 ++ (address.drop e).take (k - e) := by
      apply List.ext_getElem?
      intro p
      rw [htarget p]
      by_cases hp1 : p < e
      · rw [if_pos hp1]
        exact c2 p hp1
      · rw [if_neg hp1]
        by_cases hp2 : p < e + (8 - k)
        · rw [if_pos hp2]
          rcases Nat.lt_or_ge p k with h | h
          · exact c3 p (by omega) h hp2
          · rw [c4 p h hp2]
            have hp8 : p < address.length := by omega
            have h0 : address[p] = 0 := by
              have := h5 p h
              rwa [List.getD_eq_getElem?_getD, List.getElem?_eq_getElem hp8,
                Option.getD_some] at this
            rw [List.getElem?_eq_getElem hp8, h0]
        · rw [if_neg hp2]
          by_cases hp3 : p < 8
          · rw [if_pos hp3]
            exact c5 p (by omega) (by omega)
          · rw [if_neg hp3, List.getElem?_eq_none (by omega)]
    rw [hfinal]

theorem c5_witness :
    Ipv6Address.finish 5 5 (some 1) [9, 5, 6, 0, 0, 0, 0, 0] 3 =
      some (Except.ok (pack (([9, 5, 6, 0, 0, 0, 0, 0] : List Nat).take 1 ++
        List.replicate (8 - 3) 0 ++
        (([9, 5, 6, 0, 0, 0, 0, 0] : List Nat).drop 1).take (3 - 1)))) :=
  (c5_post_loop_behavior 5 5 (some 1) [9, 5, 6, 0, 0, 0, 0, 0] 3 (by decide)).2.2.2 1
    (by decide) (by decide) rfl (by decide)
    (by
      intro i hi
      rcases Nat.lt_or_ge i 8 with h | h
      · interval_cases i <;> rfl
      · rw [List.getD_eq_getElem?_getD, List.getElem?_eq_none (by simpa using h)]
        rfl)

end Ipaddr
